import Mathlib

/-!
Verification of `pelletier/go-bb` (src/main.go).

The development shallowly embeds the parts of the program the claims are
about:

* the Go AST fragment the reference transformer touches (identifiers with
  parser-resolved object identity, selector expressions, calls, binary
  expressions, expression/assign/inc-dec/block/if/for statements);
* `removeReferencesToIdentifier`, the `astutil.Apply` traversal with its
  shared `deleteMe` flag, including the exact `astutil` mechanics: the
  pre-order callback returning `false` skips both the descent and the
  post-order callback of that node, `Cursor.Replace` swaps the slot content
  while the walk continues over the original node's children, and
  `Cursor.Delete` in the post-order callback removes the current slot from
  its containing slice (any slice: statement lists, argument lists,
  assignment sides) and clears the flag;
* `rewriteBenchFuncInPlace` (parameter-count check, parameter removal, doc
  comment append), `renameTestFiles`, `findBenchmarkFuncs` and the ordering
  of `main`'s file-system effects.

Machine integers play no role; the embedding uses `Nat` for the parser's
object identities (two identifiers denote the same symbol iff they carry
the same object number, mirroring `ident.Obj == id.Obj`).
-/

/-- Binary operator tokens; only `token.LSS` (`<`) is inspected by the
transformer, the remaining operators are collapsed into representatives. -/
inductive BinOp where
  | lss
  | add
  | eql
  | other
deriving DecidableEq, Repr

mutual
/-- Expressions of the embedded Go AST fragment.  An identifier carries its
name and the parser-resolved object identity (`ast.Ident.Obj`), with the
convention that two identifiers refer to the same declaration iff their
`obj` numbers agree.  A selector's field name can never be a reference to
the harness parameter, so it is kept as a plain string. -/
inductive Expr where
  | ident (name : String) (obj : Nat)
  | basicLit (value : String)
  | selector (x : Expr) (sel : String)
  | call (fn : Expr) (args : ExprList)
  | binary (op : BinOp) (x : Expr) (y : Expr)

/-- A slice of expressions (`[]ast.Expr`): call arguments, assignment
left/right-hand sides.  Elements of such a slice have a defined
`Cursor.Index`, so `Cursor.Delete` may remove them. -/
inductive ExprList where
  | nil
  | cons (e : Expr) (rest : ExprList)
end

deriving instance DecidableEq for Expr, ExprList
deriving instance Repr for Expr, ExprList

mutual
/-- Statements of the embedded Go AST fragment. -/
inductive Stmt where
  | exprStmt (x : Expr)
  | assign (lhs : ExprList) (rhs : ExprList)
  | incDec (x : Expr)
  | block (l : StmtList)
  | ifStmt (cond : Expr) (body : StmtList) (els : OptStmt)
  | forStmt (ini : OptStmt) (cond : Option Expr) (post : OptStmt) (body : StmtList)

/-- A slice of statements (`[]ast.Stmt`), e.g. `BlockStmt.List`. -/
inductive StmtList where
  | nil
  | cons (s : Stmt) (l : StmtList)

/-- An optional statement child occupying a single (non-slice) field, such
as `ForStmt.Init`, `ForStmt.Post` or `IfStmt.Else`; such a child has
`Cursor.Index() < 0`. -/
inductive OptStmt where
  | none
  | some (s : Stmt)
end

deriving instance DecidableEq for Stmt, StmtList, OptStmt
deriving instance Repr for Stmt, StmtList, OptStmt

/-- `v.Fun` is a `SelectorExpr` whose base is an identifier resolving to the
harness symbol: the guard of the call-removal rule at main.go:324-333. -/
def isHarnessCall (idObj : Nat) : Expr → Bool
  | .call (.selector (.ident _ o) _) _ => o == idObj
  | _ => false

/-- The for-condition guard of the loop-hoist rule at main.go:335-348:
`v.Cond` is a `BinaryExpr` with operator `token.LSS` whose right operand is
a `SelectorExpr` based on an identifier resolving to the harness symbol. -/
def hoistCond (idObj : Nat) : Option Expr → Bool
  | Option.some (.binary .lss _ (.selector (.ident _ o) _)) => o == idObj
  | _ => false

mutual
/-- `astutil.Apply` restricted to expressions, at a non-slice position
(`Cursor.Index() < 0`).  The Boolean argument and result thread the shared
`deleteMe` flag.  A node matching the call-removal rule raises the flag and
returns `false` from the pre-order callback, which in `astutil` skips both
the descent into the node and the node's post-order callback, so the node
itself stays in place. -/
def applyExpr (idObj : Nat) (e : Expr) (b : Bool) : Expr × Bool :=
  if isHarnessCall idObj e then (e, true)
  else
    match e with
    | .ident n o => (.ident n o, b)
    | .basicLit v => (.basicLit v, b)
    | .selector x s =>
        let p := applyExpr idObj x b
        (.selector p.1 s, p.2)
    | .call f args =>
        let p := applyExpr idObj f b
        let q := applyExprList idObj args p.2
        (.call p.1 q.1, q.2)
    | .binary op x y =>
        let p := applyExpr idObj x b
        let q := applyExpr idObj y p.2
        (.binary op p.1 q.1, q.2)

/-- `astutil.applyList` over an expression slice.  Every element has a
defined index, so the post-order callback consumes a raised flag there by
deleting the current slot (`c.Delete()` at main.go:355-358); after the
post-order callback of a slice element the flag is always down.  An element
whose pre-order callback returned `false` (a harness call) keeps its slot
and leaves the flag raised for the nodes visited after it. -/
def applyExprList (idObj : Nat) (es : ExprList) (b : Bool) : ExprList × Bool :=
  match es with
  | .nil => (.nil, b)
  | .cons e rest =>
      if isHarnessCall idObj e then
        let q := applyExprList idObj rest true
        (.cons e q.1, q.2)
      else
        let p := applyExpr idObj e b
        let q := applyExprList idObj rest false
        (if p.2 then q.1 else .cons p.1 q.1, q.2)
end

/-- Traversal of an optional expression child (`ForStmt.Cond`); a `nil`
child is visited without effect. -/
def applyExprOpt (idObj : Nat) (oe : Option Expr) (b : Bool) : Option Expr × Bool :=
  match oe with
  | Option.none => (Option.none, b)
  | Option.some e =>
      let p := applyExpr idObj e b
      (Option.some p.1, p.2)

mutual
/-- `astutil.Apply` over a statement at a non-slice position.  No statement
matches the call-removal rule (it matches `CallExpr` nodes only), so the
pre-order callback always returns `true` on statements and their post-order
callback always runs.  A `for` statement matching the loop-hoist rule is
`Cursor.Replace`d by its own body block; `astutil` then still walks the
children of the original node (init, cond, post, body) — the body being the
very block now occupying the slot. -/
def applyStmt (idObj : Nat) (s : Stmt) (b : Bool) : Stmt × Bool :=
  match s with
  | .exprStmt x =>
      let p := applyExpr idObj x b
      (.exprStmt p.1, p.2)
  | .assign lhs rhs =>
      let p := applyExprList idObj lhs b
      let q := applyExprList idObj rhs p.2
      (.assign p.1 q.1, q.2)
  | .incDec x =>
      let p := applyExpr idObj x b
      (.incDec p.1, p.2)
  | .block l =>
      let p := applyStmtList idObj l b
      (.block p.1, p.2)
  | .ifStmt c body els =>
      let p := applyExpr idObj c b
      let q := applyStmtList idObj body p.2
      let r := applyStmtOpt idObj els q.2
      (.ifStmt p.1 q.1 r.1, r.2)
  | .forStmt ini cond post body =>
      if hoistCond idObj cond then
        let p1 := applyStmtOpt idObj ini b
        let p2 := applyExprOpt idObj cond p1.2
        let p3 := applyStmtOpt idObj post p2.2
        let q := applyStmtList idObj body p3.2
        (.block q.1, q.2)
      else
        let p1 := applyStmtOpt idObj ini b
        let p2 := applyExprOpt idObj cond p1.2
        let p3 := applyStmtOpt idObj post p2.2
        let q := applyStmtList idObj body p3.2
        (.forStmt p1.1 p2.1 p3.1 q.1, q.2)

/-- `astutil.applyList` over a statement slice: after each element's
post-order callback the flag is down (a raised flag deletes the slot and is
cleared; an unraised flag stays unraised), so the next element starts with
the flag down. -/
def applyStmtList (idObj : Nat) (l : StmtList) (b : Bool) : StmtList × Bool :=
  match l with
  | .nil => (.nil, b)
  | .cons s rest =>
      let p := applyStmt idObj s b
      let q := applyStmtList idObj rest false
      (if p.2 then q.1 else .cons p.1 q.1, q.2)

/-- Traversal of an optional statement child (`Init`, `Post`, `Else`). -/
def applyStmtOpt (idObj : Nat) (os : OptStmt) (b : Bool) : OptStmt × Bool :=
  match os with
  | .none => (.none, b)
  | .some s =>
      let p := applyStmt idObj s b
      (.some p.1, p.2)
end

/-- `removeReferencesToIdentifier` (main.go:309-362): run the two-callback
`astutil.Apply` traversal over the function body with a fresh `deleteMe`
flag and return the rewritten root.  The root is visited at a non-slice
position. -/
def removeReferencesToIdentifier (idObj : Nat) (root : Stmt) : Stmt :=
  (applyStmt idObj root false).1

mutual
/-- Number of identifier occurrences resolving to the harness symbol inside
an expression. -/
def countRefsE (idObj : Nat) : Expr → Nat
  | .ident _ o => if o == idObj then 1 else 0
  | .basicLit _ => 0
  | .selector x _ => countRefsE idObj x
  | .call f args => countRefsE idObj f + countRefsEL idObj args
  | .binary _ x y => countRefsE idObj x + countRefsE idObj y

/-- Reference count of an expression slice. -/
def countRefsEL (idObj : Nat) : ExprList → Nat
  | .nil => 0
  | .cons e rest => countRefsE idObj e + countRefsEL idObj rest
end

/-- Reference count of an optional expression. -/
def countRefsEO (idObj : Nat) : Option Expr → Nat
  | Option.none => 0
  | Option.some e => countRefsE idObj e

mutual
/-- Number of identifier occurrences resolving to the harness symbol inside
a statement. -/
def countRefsS (idObj : Nat) : Stmt → Nat
  | .exprStmt x => countRefsE idObj x
  | .assign lhs rhs => countRefsEL idObj lhs + countRefsEL idObj rhs
  | .incDec x => countRefsE idObj x
  | .block l => countRefsSL idObj l
  | .ifStmt c body els => countRefsE idObj c + countRefsSL idObj body + countRefsSO idObj els
  | .forStmt ini cond post body =>
      countRefsSO idObj ini + countRefsEO idObj cond + countRefsSO idObj post +
        countRefsSL idObj body

/-- Reference count of a statement slice. -/
def countRefsSL (idObj : Nat) : StmtList → Nat
  | .nil => 0
  | .cons s rest => countRefsS idObj s + countRefsSL idObj rest

/-- Reference count of an optional statement. -/
def countRefsSO (idObj : Nat) : OptStmt → Nat
  | .none => 0
  | .some s => countRefsS idObj s
end

mutual
/-- The reference-placement hypothesis of the spec's completeness property,
taken literally: every identifier occurrence resolving to the harness
symbol sits either as the base of a member-access callee of a call
expression, or (checked at the statement level) as the base of the
member-access right operand of a strictly-less-than loop condition.  Bare
occurrences anywhere else are rejected. -/
def refsOkE (idObj : Nat) : Expr → Bool
  | .ident _ o => !(o == idObj)
  | .basicLit _ => true
  | .selector x _ => refsOkE idObj x
  | .call f args =>
      (match f with
       | .selector (.ident _ _) _ => true
       | _ => refsOkE idObj f) && refsOkEL idObj args

  | .binary _ x y => refsOkE idObj x && refsOkE idObj y

/-- `refsOkE` over an expression slice. -/
def refsOkEL (idObj : Nat) : ExprList → Bool
  | .nil => true
  | .cons e rest => refsOkE idObj e && refsOkEL idObj rest
end

mutual
/-- Statement-level part of the literal reference-placement hypothesis: in
a strictly-less-than for-condition the right operand may be a member access
based on the harness symbol; all other positions defer to `refsOkE`. -/
def refsOkS (idObj : Nat) : Stmt → Bool
  | .exprStmt x => refsOkE idObj x
  | .assign lhs rhs => refsOkEL idObj lhs && refsOkEL idObj rhs
  | .incDec x => refsOkE idObj x
  | .block l => refsOkSL idObj l
  | .ifStmt c body els => refsOkE idObj c && refsOkSL idObj body && refsOkSO idObj els
  | .forStmt ini cond post body =>
      refsOkSO idObj ini && refsOkSO idObj post && refsOkSL idObj body &&
      (match cond with
       | Option.some (.binary .lss x y) =>
           refsOkE idObj x &&
           (match y with
            | .selector (.ident _ _) _ => true
            | _ => refsOkE idObj y)
       | Option.some c => refsOkE idObj c
       | Option.none => true)

/-- `refsOkS` over a statement slice. -/
def refsOkSL (idObj : Nat) : StmtList → Bool
  | .nil => true
  | .cons s rest => refsOkS idObj s && refsOkSL idObj rest

/-- `refsOkS` over an optional statement. -/
def refsOkSO (idObj : Nat) : OptStmt → Bool
  | .none => true
  | .some s => refsOkS idObj s
end

mutual
/-- Strengthened reference-placement hypothesis under which the transformer
is actually complete.  `inList` records whether the statement is a direct
element of a statement slice.  A call on the harness symbol is allowed only
as the entire expression of an expression statement that sits in a
statement slice; a loop bound on the harness symbol is allowed only when
the loop's init, post and comparison left operand are free of harness
references; every other position must be free of harness references. -/
def goodS (idObj : Nat) (inList : Bool) (s : Stmt) : Bool :=
  match s with
  | .exprStmt x => (inList && isHarnessCall idObj x) || countRefsE idObj x == 0
  | .assign lhs rhs => countRefsEL idObj lhs == 0 && countRefsEL idObj rhs == 0
  | .incDec x => countRefsE idObj x == 0
  | .block l => goodSL idObj l
  | .ifStmt c body els =>
      countRefsE idObj c == 0 && goodSL idObj body && goodSO idObj els
  | .forStmt ini cond post body =>
      countRefsSO idObj ini == 0 && countRefsSO idObj post == 0 && goodSL idObj body &&
      (if hoistCond idObj cond then
         (match cond with
          | Option.some (.binary _ x _) => countRefsE idObj x == 0
          | _ => true)
       else countRefsEO idObj cond == 0)

/-- `goodS` over a statement slice (each element sits at a slice index). -/
def goodSL (idObj : Nat) : StmtList → Bool
  | .nil => true
  | .cons s rest => goodS idObj true s && goodSL idObj rest

/-- `goodS` over an optional (non-slice) statement child. -/
def goodSO (idObj : Nat) : OptStmt → Bool
  | .none => true
  | .some s => goodS idObj false s
end

/-- A node matching the call-removal rule is left in place with the flag
raised: its pre-order callback returns `false`, so neither descent nor its
own post-order callback happens. -/
theorem applyExpr_harness (idObj : Nat) (e : Expr) (b : Bool)
    (h : isHarnessCall idObj e = true) : applyExpr idObj e b = (e, true) := by
  rw [applyExpr.eq_def, if_pos h]

mutual
/-- The traversal never introduces references: every rewrite keeps a node,
deletes a slice element, or replaces a loop by its own body, so the
reference count of the result expression is bounded by the original. -/
theorem countRefs_applyExpr_le (idObj : Nat) (e : Expr) (b : Bool) :
    countRefsE idObj (applyExpr idObj e b).1 ≤ countRefsE idObj e := by
  by_cases h : isHarnessCall idObj e = true
  · simp [applyExpr_harness idObj e b h]
  · rw [Bool.not_eq_true] at h
    cases e with
    | ident n o => simp [applyExpr, h]
    | basicLit v => simp [applyExpr, h]
    | selector x s =>
        have hx := countRefs_applyExpr_le idObj x b
        simp only [applyExpr, h, Bool.false_eq_true, if_false, countRefsE]
        exact hx
    | call f args =>
        have hf := countRefs_applyExpr_le idObj f b
        have ha := countRefs_applyExprList_le idObj args (applyExpr idObj f b).2
        simp only [applyExpr, h, Bool.false_eq_true, if_false, countRefsE]
        omega
    | binary op x y =>
        have hx := countRefs_applyExpr_le idObj x b
        have hy := countRefs_applyExpr_le idObj y (applyExpr idObj x b).2
        simp only [applyExpr, h, Bool.false_eq_true, if_false, countRefsE]
        omega

/-- Slice version of `countRefs_applyExpr_le`. -/
theorem countRefs_applyExprList_le (idObj : Nat) (es : ExprList) (b : Bool) :
    countRefsEL idObj (applyExprList idObj es b).1 ≤ countRefsEL idObj es := by
  cases es with
  | nil => simp [applyExprList]
  | cons e rest =>
      by_cases h : isHarnessCall idObj e = true
      · have hr := countRefs_applyExprList_le idObj rest true
        simp only [applyExprList, h, if_true, countRefsEL]
        omega
      · rw [Bool.not_eq_true] at h
        have he := countRefs_applyExpr_le idObj e b
        have hr := countRefs_applyExprList_le idObj rest false
        simp only [applyExprList, h, Bool.false_eq_true, if_false]
        cases hp : (applyExpr idObj e b).2 <;> simp only [if_true, if_false, countRefsEL] <;> omega
end

/-- Optional-expression version of `countRefs_applyExpr_le`. -/
theorem countRefs_applyExprOpt_le (idObj : Nat) (oe : Option Expr) (b : Bool) :
    countRefsEO idObj (applyExprOpt idObj oe b).1 ≤ countRefsEO idObj oe := by
  cases oe with
  | none => simp [applyExprOpt]
  | some e =>
      have := countRefs_applyExpr_le idObj e b
      simpa [applyExprOpt, countRefsEO] using this

mutual
/-- Statement version of `countRefs_applyExpr_le`: the rewritten statement
contains at most as many harness references as the original. -/
theorem countRefs_applyStmt_le (idObj : Nat) (s : Stmt) (b : Bool) :
    countRefsS idObj (applyStmt idObj s b).1 ≤ countRefsS idObj s := by
  cases s with
  | exprStmt x =>
      have := countRefs_applyExpr_le idObj x b
      simp only [applyStmt, countRefsS]
      exact this
  | assign lhs rhs =>
      have hl := countRefs_applyExprList_le idObj lhs b
      have hr := countRefs_applyExprList_le idObj rhs (applyExprList idObj lhs b).2
      simp only [applyStmt, countRefsS]
      omega
  | incDec x =>
      have := countRefs_applyExpr_le idObj x b
      simp only [applyStmt, countRefsS]
      exact this
  | block l =>
      have := countRefs_applyStmtList_le idObj l b
      simp only [applyStmt, countRefsS]
      exact this
  | ifStmt c body els =>
      have hc := countRefs_applyExpr_le idObj c b
      have hb := countRefs_applyStmtList_le idObj body (applyExpr idObj c b).2
      have he := countRefs_applyStmtOpt_le idObj els
        (applyStmtList idObj body (applyExpr idObj c b).2).2
      simp only [applyStmt, countRefsS]
      omega
  | forStmt ini cond post body =>
      by_cases h : hoistCond idObj cond = true
      · have hb := countRefs_applyStmtList_le idObj body
          (applyStmtOpt idObj post
            (applyExprOpt idObj cond (applyStmtOpt idObj ini b).2).2).2
        simp only [applyStmt, h, if_true, countRefsS]
        omega
      · rw [Bool.not_eq_true] at h
        have h1 := countRefs_applyStmtOpt_le idObj ini b
        have h2 := countRefs_applyExprOpt_le idObj cond (applyStmtOpt idObj ini b).2
        have h3 := countRefs_applyStmtOpt_le idObj post
          (applyExprOpt idObj cond (applyStmtOpt idObj ini b).2).2
        have h4 := countRefs_applyStmtList_le idObj body
          (applyStmtOpt idObj post
            (applyExprOpt idObj cond (applyStmtOpt idObj ini b).2).2).2
        simp only [applyStmt, h, Bool.false_eq_true, if_false, countRefsS]
        omega

/-- Slice version of `countRefs_applyStmt_le`. -/
theorem countRefs_applyStmtList_le (idObj : Nat) (l : StmtList) (b : Bool) :
    countRefsSL idObj (applyStmtList idObj l b).1 ≤ countRefsSL idObj l := by
  cases l with
  | nil => simp [applyStmtList]
  | cons s rest =>
      have hs := countRefs_applyStmt_le idObj s b
      have hr := countRefs_applyStmtList_le idObj rest false
      simp only [applyStmtList]
      cases hp : (applyStmt idObj s b).2 <;> simp only [if_true, if_false, countRefsSL] <;> omega

/-- Optional version of `countRefs_applyStmt_le`. -/
theorem countRefs_applyStmtOpt_le (idObj : Nat) (os : OptStmt) (b : Bool) :
    countRefsSO idObj (applyStmtOpt idObj os b).1 ≤ countRefsSO idObj os := by
  cases os with
  | none => simp [applyStmtOpt]
  | some s =>
      have := countRefs_applyStmt_le idObj s b
      simpa [applyStmtOpt, countRefsSO] using this
end

/-- An expression without harness references cannot match the call-removal
guard, which demands a harness identifier as the callee's base. -/
theorem isHarnessCall_eq_false (idObj : Nat) (e : Expr)
    (h : countRefsE idObj e = 0) : isHarnessCall idObj e = false := by
  cases e with
  | call f args =>
      cases f with
      | selector x sel =>
          cases x with
          | ident n o =>
              simp only [countRefsE] at h
              by_cases ho : (o == idObj) = true
              · rw [if_pos ho] at h; exfalso; omega
              · rw [Bool.not_eq_true] at ho
                simp only [isHarnessCall]
                exact ho
          | basicLit v => rfl
          | selector a s => rfl
          | call a l => rfl
          | binary op a c => rfl
      | ident n o => rfl
      | basicLit v => rfl
      | call a l => rfl
      | binary op a c => rfl
  | ident n o => rfl
  | basicLit v => rfl
  | selector a s => rfl
  | binary op a c => rfl

/-- A for-condition without harness references cannot match the loop-hoist
guard, which demands a harness identifier under the right operand. -/
theorem hoistCond_eq_false (idObj : Nat) (cond : Option Expr)
    (h : countRefsEO idObj cond = 0) : hoistCond idObj cond = false := by
  cases cond with
  | none => rfl
  | some c =>
      cases c with
      | binary op x y =>
          cases op with
          | lss =>
              cases y with
              | selector z s =>
                  cases z with
                  | ident n o =>
                      simp only [countRefsEO, countRefsE] at h
                      by_cases ho : (o == idObj) = true
                      · rw [if_pos ho] at h; exfalso; omega
                      · rw [Bool.not_eq_true] at ho
                        simp only [hoistCond]
                        exact ho
                  | basicLit v => rfl
                  | selector a t => rfl
                  | call a l => rfl
                  | binary op2 a c2 => rfl
              | ident n o => rfl
              | basicLit v => rfl
              | call a l => rfl
              | binary op2 a c2 => rfl
          | add => rfl
          | eql => rfl
          | other => rfl
      | ident n o => rfl
      | basicLit v => rfl
      | selector a s => rfl
      | call a l => rfl

mutual
/-- On an expression without harness references, a traversal entered with
the flag down is the identity and leaves the flag down. -/
theorem applyExpr_noop (idObj : Nat) (e : Expr) (h : countRefsE idObj e = 0) :
    applyExpr idObj e false = (e, false) := by
  have hh := isHarnessCall_eq_false idObj e h
  cases e with
  | ident n o => simp [applyExpr, hh]
  | basicLit v => simp [applyExpr, hh]
  | selector x s =>
      have hx : countRefsE idObj x = 0 := by
        simp only [countRefsE] at h; exact h
      simp only [applyExpr, hh, Bool.false_eq_true, if_false]
      rw [applyExpr_noop idObj x hx]
  | call f args =>
      have hf : countRefsE idObj f = 0 := by
        simp only [countRefsE] at h; omega
      have ha : countRefsEL idObj args = 0 := by
        simp only [countRefsE] at h; omega
      simp only [applyExpr, hh, Bool.false_eq_true, if_false]
      rw [applyExpr_noop idObj f hf]
      rw [applyExprList_noop idObj args ha]
  | binary op x y =>
      have hx : countRefsE idObj x = 0 := by
        simp only [countRefsE] at h; omega
      have hy : countRefsE idObj y = 0 := by
        simp only [countRefsE] at h; omega
      simp only [applyExpr, hh, Bool.false_eq_true, if_false]
      rw [applyExpr_noop idObj x hx]
      rw [applyExpr_noop idObj y hy]

/-- Slice version of `applyExpr_noop`. -/
theorem applyExprList_noop (idObj : Nat) (es : ExprList)
    (h : countRefsEL idObj es = 0) :
    applyExprList idObj es false = (es, false) := by
  cases es with
  | nil => rfl
  | cons e rest =>
      have he : countRefsE idObj e = 0 := by
        simp only [countRefsEL] at h; omega
      have hr : countRefsEL idObj rest = 0 := by
        simp only [countRefsEL] at h; omega
      have hh := isHarnessCall_eq_false idObj e he
      simp only [applyExprList, hh, Bool.false_eq_true, if_false]
      rw [applyExpr_noop idObj e he]
      rw [applyExprList_noop idObj rest hr]
      simp
end

/-- Optional-expression version of `applyExpr_noop`. -/
theorem applyExprOpt_noop (idObj : Nat) (oe : Option Expr)
    (h : countRefsEO idObj oe = 0) :
    applyExprOpt idObj oe false = (oe, false) := by
  cases oe with
  | none => rfl
  | some e =>
      have he : countRefsE idObj e = 0 := h
      simp only [applyExprOpt]
      rw [applyExpr_noop idObj e he]

mutual
/-- On a statement without harness references, a traversal entered with the
flag down is the identity and leaves the flag down: neither rewrite rule can
fire and nothing is deleted. -/
theorem applyStmt_noop (idObj : Nat) (s : Stmt) (h : countRefsS idObj s = 0) :
    applyStmt idObj s false = (s, false) := by
  cases s with
  | exprStmt x =>
      have hx : countRefsE idObj x = 0 := h
      simp only [applyStmt]
      rw [applyExpr_noop idObj x hx]
  | assign lhs rhs =>
      have hl : countRefsEL idObj lhs = 0 := by
        simp only [countRefsS] at h; omega
      have hr : countRefsEL idObj rhs = 0 := by
        simp only [countRefsS] at h; omega
      simp only [applyStmt]
      rw [applyExprList_noop idObj lhs hl]
      rw [applyExprList_noop idObj rhs hr]
  | incDec x =>
      have hx : countRefsE idObj x = 0 := h
      simp only [applyStmt]
      rw [applyExpr_noop idObj x hx]
  | block l =>
      have hl : countRefsSL idObj l = 0 := h
      simp only [applyStmt]
      rw [applyStmtList_noop idObj l hl]
  | ifStmt c body els =>
      have hc : countRefsE idObj c = 0 := by
        simp only [countRefsS] at h; omega
      have hb : countRefsSL idObj body = 0 := by
        simp only [countRefsS] at h; omega
      have he : countRefsSO idObj els = 0 := by
        simp only [countRefsS] at h; omega
      simp only [applyStmt]
      rw [applyExpr_noop idObj c hc]
      rw [applyStmtList_noop idObj body hb]
      rw [applyStmtOpt_noop idObj els he]
  | forStmt ini cond post body =>
      have h1 : countRefsSO idObj ini = 0 := by
        simp only [countRefsS] at h; omega
      have h2 : countRefsEO idObj cond = 0 := by
        simp only [countRefsS] at h; omega
      have h3 : countRefsSO idObj post = 0 := by
        simp only [countRefsS] at h; omega
      have h4 : countRefsSL idObj body = 0 := by
        simp only [countRefsS] at h; omega
      have hh := hoistCond_eq_false idObj cond h2
      simp only [applyStmt, hh, Bool.false_eq_true, if_false]
      rw [applyStmtOpt_noop idObj ini h1]
      rw [applyExprOpt_noop idObj cond h2]
      rw [applyStmtOpt_noop idObj post h3]
      rw [applyStmtList_noop idObj body h4]

/-- Slice version of `applyStmt_noop`. -/
theorem applyStmtList_noop (idObj : Nat) (l : StmtList)
    (h : countRefsSL idObj l = 0) :
    applyStmtList idObj l false = (l, false) := by
  cases l with
  | nil => rfl
  | cons s rest =>
      have hs : countRefsS idObj s = 0 := by
        simp only [countRefsSL] at h; omega
      have hr : countRefsSL idObj rest = 0 := by
        simp only [countRefsSL] at h; omega
      simp only [applyStmtList]
      rw [applyStmt_noop idObj s hs]
      rw [applyStmtList_noop idObj rest hr]
      simp

/-- Optional version of `applyStmt_noop`. -/
theorem applyStmtOpt_noop (idObj : Nat) (os : OptStmt)
    (h : countRefsSO idObj os = 0) :
    applyStmtOpt idObj os false = (os, false) := by
  cases os with
  | none => rfl
  | some s =>
      have hs : countRefsS idObj s = 0 := h
      simp only [applyStmtOpt]
      rw [applyStmt_noop idObj s hs]
end

/-- `goodS` at a slice position weakens to `goodS` at a non-slice position
once the statement is not a harness-call expression statement. -/
theorem goodS_false_of_true (idObj : Nat) (s : Stmt)
    (hg : goodS idObj true s = true)
    (hx : ∀ x, s = .exprStmt x → isHarnessCall idObj x = false) :
    goodS idObj false s = true := by
  cases s with
  | exprStmt x =>
      have hc := hx x rfl
      simp only [goodS, Bool.true_and, hc, Bool.false_or] at hg
      simp only [goodS, Bool.false_and, Bool.false_or]
      exact hg
  | assign lhs rhs => exact hg
  | incDec x => exact hg
  | block l => exact hg
  | ifStmt c body els => exact hg
  | forStmt ini cond post body => exact hg

mutual
/-- Under the strengthened placement hypothesis, the rewritten statement
contains no harness references, whatever the incoming flag. -/
theorem countRefs_applyStmt_good (idObj : Nat) (s : Stmt) (b : Bool)
    (hg : goodS idObj false s = true) :
    countRefsS idObj (applyStmt idObj s b).1 = 0 := by
  cases s with
  | exprStmt x =>
      have hx : countRefsE idObj x = 0 := by
        simp only [goodS, Bool.false_and, Bool.false_or, beq_iff_eq] at hg
        exact hg
      have hle := countRefs_applyExpr_le idObj x b
      simp only [applyStmt, countRefsS]
      omega
  | assign lhs rhs =>
      simp only [goodS, Bool.and_eq_true, beq_iff_eq] at hg
      obtain ⟨h1, h2⟩ := hg
      have hl := countRefs_applyExprList_le idObj lhs b
      have hr := countRefs_applyExprList_le idObj rhs (applyExprList idObj lhs b).2
      simp only [applyStmt, countRefsS]
      omega
  | incDec x =>
      have hx : countRefsE idObj x = 0 := by
        simp only [goodS, beq_iff_eq] at hg
        exact hg
      have hle := countRefs_applyExpr_le idObj x b
      simp only [applyStmt, countRefsS]
      omega
  | block l =>
      have hl : goodSL idObj l = true := hg
      simp only [applyStmt, countRefsS]
      exact countRefs_applyStmtList_good idObj l b hl
  | ifStmt c body els =>
      simp only [goodS, Bool.and_eq_true, beq_iff_eq] at hg
      obtain ⟨⟨hc, hb⟩, he⟩ := hg
      have hcle := countRefs_applyExpr_le idObj c b
      have hble := countRefs_applyStmtList_good idObj body (applyExpr idObj c b).2 hb
      have hele := countRefs_applyStmtOpt_good idObj els
        (applyStmtList idObj body (applyExpr idObj c b).2).2 he
      simp only [applyStmt, countRefsS]
      omega
  | forStmt ini cond post body =>
      simp only [goodS, Bool.and_eq_true, beq_iff_eq] at hg
      obtain ⟨⟨⟨h1, h3⟩, hb⟩, hcond⟩ := hg
      by_cases hh : hoistCond idObj cond = true
      · have hble := countRefs_applyStmtList_good idObj body
          (applyStmtOpt idObj post
            (applyExprOpt idObj cond (applyStmtOpt idObj ini b).2).2).2 hb
        simp only [applyStmt, hh, if_true, countRefsS]
        exact hble
      · rw [Bool.not_eq_true] at hh
        rw [hh] at hcond
        simp only [Bool.false_eq_true, if_false, beq_iff_eq] at hcond
        have hle1 := countRefs_applyStmtOpt_le idObj ini b
        have hle2 := countRefs_applyExprOpt_le idObj cond (applyStmtOpt idObj ini b).2
        have hle3 := countRefs_applyStmtOpt_le idObj post
          (applyExprOpt idObj cond (applyStmtOpt idObj ini b).2).2
        have hble := countRefs_applyStmtList_good idObj body
          (applyStmtOpt idObj post
            (applyExprOpt idObj cond (applyStmtOpt idObj ini b).2).2).2 hb
        simp only [applyStmt, hh, Bool.false_eq_true, if_false, countRefsS]
        omega

/-- Slice version of `countRefs_applyStmt_good`: harness-call expression
statements at slice indices are deleted, everything else is covered by the
non-slice case. -/
theorem countRefs_applyStmtList_good (idObj : Nat) (l : StmtList) (b : Bool)
    (hg : goodSL idObj l = true) :
    countRefsSL idObj (applyStmtList idObj l b).1 = 0 := by
  cases l with
  | nil => simp [applyStmtList, countRefsSL]
  | cons s rest =>
      simp only [goodSL, Bool.and_eq_true] at hg
      obtain ⟨h1, h2⟩ := hg
      have hq := countRefs_applyStmtList_good idObj rest false h2
      by_cases hexpr : ∃ x, s = Stmt.exprStmt x ∧ isHarnessCall idObj x = true
      · obtain ⟨x, rfl, hc⟩ := hexpr
        have hst : applyStmt idObj (Stmt.exprStmt x) b = (Stmt.exprStmt x, true) := by
          simp only [applyStmt]
          rw [applyExpr_harness idObj x b hc]
        simp only [applyStmtList, hst, if_true]
        exact hq
      · have hfalse : goodS idObj false s = true := by
          apply goodS_false_of_true idObj s h1
          intro x hxeq
          rw [Bool.eq_false_iff]
          intro hc
          exact hexpr ⟨x, hxeq, hc⟩
        have hs := countRefs_applyStmt_good idObj s b hfalse
        simp only [applyStmtList]
        cases hp : (applyStmt idObj s b).2 <;>
          simp only [hp, Bool.false_eq_true, if_true, if_false, countRefsSL] <;> omega

/-- Optional version of `countRefs_applyStmt_good`. -/
theorem countRefs_applyStmtOpt_good (idObj : Nat) (os : OptStmt) (b : Bool)
    (hg : goodSO idObj os = true) :
    countRefsSO idObj (applyStmtOpt idObj os b).1 = 0 := by
  cases os with
  | none => simp [applyStmtOpt, countRefsSO]
  | some s =>
      have hs : goodS idObj false s = true := hg
      simp only [applyStmtOpt, countRefsSO]
      exact countRefs_applyStmt_good idObj s b hs
end

/-- After traversing a statement slice entered with the flag down, the flag
is down again: each element's post-order callback runs at a slice index and
therefore either consumes a raised flag (deleting the slot) or keeps it
down. -/
theorem applyStmtList_flag (idObj : Nat) (l : StmtList) :
    (applyStmtList idObj l false).2 = false := by
  cases l with
  | nil => rfl
  | cons s rest =>
      simp only [applyStmtList]
      exact applyStmtList_flag idObj rest

/-- A named identifier of a parameter field: name plus parser object. -/
structure ParamName where
  name : String
  obj : Nat
deriving DecidableEq, Repr

/-- One field of a parameter `ast.FieldList`; a field may declare several
names, or none (an unnamed parameter). -/
structure ParamField where
  names : List ParamName
deriving DecidableEq, Repr

/-- `ast.FieldList.NumFields`: the sum over fields of the number of
declared names, an unnamed field counting as one parameter. -/
def numFields (params : List ParamField) : Nat :=
  (params.map (fun f => if f.names.length == 0 then 1 else f.names.length)).sum

/-- `Params.List[0].Names[0]` (main.go:260): the first declared name of the
first parameter field; `Option.none` models the index-out-of-range panic
when the field list is empty or the first field is unnamed. -/
def firstParamName (params : List ParamField) : Option ParamName :=
  match params with
  | [] => Option.none
  | f :: _ => f.names.head?

/-- The text of the directive comment appended at main.go:272-274. -/
def goNoinlineComment : String := "//go:noinline"

/-- A function declaration as the Declaration Editor sees it: name,
parameter fields, optional leading doc comment group (a list of comment
texts; `Option.none` models a nil `ast.CommentGroup`), and body. -/
structure FuncDecl where
  name : String
  params : List ParamField
  doc : Option (List String)
  body : Stmt
deriving DecidableEq, Repr

/-- The pure content of `rewriteBenchFuncInPlace` (main.go:230-288) after
the declaration has been located: reject unless `NumFields() == 1`
(main.go:256-258, a fatal `die` modeled as `Except.error`), read the
harness identifier from `Params.List[0].Names[0]`, clear the parameter
list, rewrite the body with `removeReferencesToIdentifier`, and append the
`//go:noinline` comment to the doc list (creating an empty group first when
the declaration has none).  The file write happens only after all of this
succeeds. -/
def rewriteBenchFuncInPlace (d : FuncDecl) : Except String FuncDecl :=
  if numFields d.params != 1 then
    Except.error "Function is expected to have exactly one parameter"
  else
    match firstParamName d.params with
    | Option.none => Except.error "panic: index out of range in parameter names"
    | Option.some pn =>
        Except.ok
          { d with
            params := [],
            body := removeReferencesToIdentifier pn.obj d.body,
            doc := Option.some ((d.doc.getD []) ++ [goNoinlineComment]) }

/-- `l` begins with `p` (`strings.HasPrefix` on character lists). -/
def listStartsWith : List Char → List Char → Bool
  | _, [] => true
  | [], _ :: _ => false
  | a :: as, c :: cs => a == c && listStartsWith as cs

/-- `s` ends with `suf` (`strings.HasSuffix` on character lists). -/
def listEndsWith : List Char → List Char → Bool
  | [], suf => suf.isEmpty
  | a :: as, suf =>
      if (a :: as).length ≤ suf.length then (a :: as) == suf
      else listEndsWith as suf

/-- `p` occurs somewhere inside `s` as a contiguous run. -/
def listContainsSub : List Char → List Char → Bool
  | s, p =>
      if listStartsWith s p then true
      else
        match s with
        | [] => false
        | _ :: t => listContainsSub t p

/-- `strings.Replace(s, old, new, 1)`: replace the first (leftmost)
occurrence of `old` in `s` with `new`; `s` is returned unchanged when `old`
does not occur. -/
def replaceFirst (old new : List Char) : List Char → List Char
  | [] => if listStartsWith [] old then new else []
  | c :: t =>
      if listStartsWith (c :: t) old then new ++ (c :: t).drop old.length
      else c :: replaceFirst old new t

/-- Number of (possibly overlapping) occurrences of `p` inside `s`; used
only to state hypotheses about names in which the test suffix occurs once. -/
def countOcc (p : List Char) : List Char → Nat
  | [] => 0
  | c :: t => (if listStartsWith (c :: t) p then 1 else 0) + countOcc p t

/-- The test-only filename suffix checked at main.go:175. -/
def testGoSuffix : List Char := "_test.go".data

/-- The replacement substring used at main.go:179. -/
def bborigSuffix : List Char := "_bborig.go".data

/-- A directory entry as returned by `os.ReadDir`. -/
structure DirEntry where
  name : String
  isDir : Bool
deriving DecidableEq, Repr

/-- The body of the loop of `renameTestFiles` (main.go:174-186) for a
single entry: directories and files without the `_test.go` suffix are left
untouched; otherwise the entry is renamed, the new name being
`strings.Replace(name, "_test.go", "_bborig.go", 1)`. -/
def renameEntry (e : DirEntry) : DirEntry :=
  if e.isDir || !(listEndsWith e.name.data testGoSuffix) then e
  else { e with name := String.mk (replaceFirst testGoSuffix bborigSuffix e.name.data) }

/-- `renameTestFiles` (main.go:169-188) as the map it performs on the
directory listing. -/
def renameTestFiles (files : List DirEntry) : List DirEntry :=
  files.map renameEntry

/-- `strings.HasPrefix(name, "Benchmark")` (main.go:420). -/
def benchNamed (name : String) : Bool :=
  listStartsWith name.data "Benchmark".data

/-- Models `regexp.MustCompile(".*" + pat + ".*").MatchString(name)`
(main.go:68 and main.go:420) for a pattern without regular-expression
metacharacters: the wrapped pattern matches exactly when `pat` occurs
somewhere inside `name`.  The regular-expression engine itself is Go
standard library, treated as an external collaborator. -/
def matchWrapped (pat name : String) : Bool :=
  listContainsSub name.data pat.data

/-- A source file of the package: its base name and its parse result,
`Option.none` modeling a file skipped because it could not be parsed
(main.go:413-417); a parsed file is its list of function declarations
(non-function declarations are skipped by the loop at main.go:418-421). -/
structure SrcFile where
  name : String
  parsed : Option (List FuncDecl)
deriving DecidableEq, Repr

/-- The slice of `build.Package` that `findBenchmarkFuncs` consumes:
in-package test files and external test files (main.go:406-408). -/
structure Package where
  testGoFiles : List SrcFile
  xTestGoFiles : List SrcFile
deriving DecidableEq, Repr

/-- `fnLoc` (main.go:433-436). -/
structure fnLoc where
  file : String
  name : String
deriving DecidableEq, Repr

/-- `findBenchmarkFuncs` (main.go:403-431): over all test files (in order,
in-package before external), skipping unparsable files, collect a
`fnLoc` for every function declaration whose name has the `Benchmark`
prefix and matches the wrapped name pattern. -/
def findBenchmarkFuncs (pkg : Package) (pat : String) : List fnLoc :=
  (pkg.testGoFiles ++ pkg.xTestGoFiles).flatMap (fun f =>
    match f.parsed with
    | Option.none => []
    | Option.some decls =>
        decls.filterMap (fun d =>
          if benchNamed d.name && matchWrapped pat d.name
          then Option.some ⟨f.name, d.name⟩ else Option.none))

/-- The re-discovery of the selected declaration performed by
`rewriteBenchFuncInPlace` (main.go:239-254) on the copied file: the first
function declaration with the selected name in the selected file.  The
copy is byte-identical to the original, so it is looked up in the package
itself. -/
def lookupDecl (pkg : Package) (loc : fnLoc) : Option FuncDecl :=
  match (pkg.testGoFiles ++ pkg.xTestGoFiles).find? (fun f => f.name == loc.file) with
  | Option.none => Option.none
  | Option.some f => (f.parsed.getD []).find? (fun d => d.name == loc.name)

/-- File-system effects of `main`, in program order.  `mkTmpDir` covers
`os.MkdirTemp` and the `bborig` subdirectory; `copyAll` covers
`copyModuleToTmp` (creation of fresh copies inside the scratch directory);
`writeRewritten` is the truncating rewrite of the copied source file
(main.go:277-285); `renameAll` is `renameTestFiles`; `writeMainGo` creates
the generated entry point; `buildAll` covers the module init, tidy and
build invocations. -/
inductive FsAction where
  | mkTmpDir
  | copyAll
  | writeRewritten (file : String)
  | renameAll
  | writeMainGo
  | buildAll
deriving DecidableEq, Repr

/-- Whether an action writes to a file that already existed before the run
(as opposed to creating a fresh directory, copy, or generated file). -/
def FsAction.modifies : FsAction → Bool
  | .writeRewritten _ => true
  | .renameAll => true
  | _ => false

/-- The effect skeleton of `main` (main.go:43-167) from selection onward:
returns the file-system actions performed, and the fatal diagnostic if the
run died.  Selection errors (no match at main.go:78-80, ambiguity at
main.go:86-88) abort before any file-system action; the shape check and
the in-memory rewrite happen after the scratch copy but before the
truncating write of the copied file. -/
def mainRun (pkg : Package) (pat : String) : List FsAction × Option String :=
  match findBenchmarkFuncs pkg pat with
  | [] => ([], Option.some "Could not find any benchmark function")
  | loc :: rest =>
      if rest.isEmpty then
        match lookupDecl pkg loc with
        | Option.none =>
            ([FsAction.mkTmpDir, FsAction.copyAll],
             Option.some "panic: could not find benchmark declaration after the files have been copied")
        | Option.some d =>
            match rewriteBenchFuncInPlace d with
            | Except.error e => ([FsAction.mkTmpDir, FsAction.copyAll], Option.some e)
            | Except.ok _ =>
                ([FsAction.mkTmpDir, FsAction.copyAll, FsAction.writeRewritten loc.file,
                  FsAction.renameAll, FsAction.writeMainGo, FsAction.buildAll],
                 Option.none)
      else ([], Option.some "There should be only one matching function")

/-- A suffix is no longer than the word it ends. -/
theorem listEndsWith_length (s suf : List Char) (h : listEndsWith s suf = true) :
    suf.length ≤ s.length := by
  cases s with
  | nil =>
      simp only [listEndsWith, List.isEmpty_iff] at h
      simp [h]
  | cons a as =>
      by_cases hl : (a :: as).length ≤ suf.length
      · simp only [listEndsWith, if_pos hl, beq_iff_eq] at h
        simp [← h]
      · omega

/-- A word ending in the test suffix contains at least one occurrence of
it. -/
theorem countOcc_pos_of_endsWith (t : List Char)
    (h : listEndsWith t testGoSuffix = true) :
    1 ≤ countOcc testGoSuffix t := by
  cases t with
  | nil => exact absurd h (by decide)
  | cons a as =>
      by_cases hl : (a :: as).length ≤ testGoSuffix.length
      · simp only [listEndsWith, if_pos hl, beq_iff_eq] at h
        rw [h]
        decide
      · simp only [listEndsWith, if_neg hl] at h
        have ih := countOcc_pos_of_endsWith as h
        simp only [countOcc]
        omega

/-- Once an occurrence exists, the replacement output is at least as long
as the replacement substring. -/
theorem replaceFirst_length_ge (t : List Char) (h : 1 ≤ countOcc testGoSuffix t) :
    10 ≤ (replaceFirst testGoSuffix bborigSuffix t).length := by
  cases t with
  | nil => simp [countOcc] at h
  | cons c r =>
      by_cases hs : listStartsWith (c :: r) testGoSuffix = true
      · simp only [replaceFirst, hs, if_true, List.length_append]
        have hb : bborigSuffix.length = 10 := by decide
        omega
      · have h2 : 1 ≤ countOcc testGoSuffix r := by
          simp only [countOcc, if_neg hs] at h
          omega
        have ih := replaceFirst_length_ge r h2
        simp only [replaceFirst, if_neg hs, List.length_cons]
        omega

/-- When `_test.go` occurs exactly once in a name that ends with it, the
single replacement performed by the rename step removes the suffix. -/
theorem replaceFirst_removes_suffix (s : List Char)
    (h1 : listEndsWith s testGoSuffix = true)
    (h2 : countOcc testGoSuffix s = 1) :
    listEndsWith (replaceFirst testGoSuffix bborigSuffix s) testGoSuffix = false := by
  cases s with
  | nil => exact absurd h1 (by decide)
  | cons c t =>
      by_cases hs : listStartsWith (c :: t) testGoSuffix = true
      · have h0 : countOcc testGoSuffix t = 0 := by
          simp only [countOcc, hs, if_true] at h2
          omega
        by_cases hl : (c :: t).length ≤ testGoSuffix.length
        · have he : (c :: t) = testGoSuffix := by
            simp only [listEndsWith, if_pos hl, beq_iff_eq] at h1
            exact h1
          rw [he]
          decide
        · simp only [listEndsWith, if_neg hl] at h1
          have hp := countOcc_pos_of_endsWith t h1
          omega
      · have h2' : countOcc testGoSuffix t = 1 := by
          simp only [countOcc, if_neg hs] at h2
          omega
        by_cases hl : (c :: t).length ≤ testGoSuffix.length
        · have he : (c :: t) = testGoSuffix := by
            simp only [listEndsWith, if_pos hl, beq_iff_eq] at h1
            exact h1
          rw [he] at hs
          exact absurd (by decide : listStartsWith testGoSuffix testGoSuffix = true) hs
        · simp only [listEndsWith, if_neg hl] at h1
          have ih := replaceFirst_removes_suffix t h1 h2'
          have hlen := replaceFirst_length_ge t (by omega)
          simp only [replaceFirst, if_neg hs]
          have hgt : ¬((c :: replaceFirst testGoSuffix bborigSuffix t).length ≤ testGoSuffix.length) := by
            simp only [List.length_cons]
            have h8 : testGoSuffix.length = 8 := by decide
            omega
          rw [listEndsWith, if_neg hgt]
          exact ih

/-- Body `f(h.A(), x)`: the only harness reference sits as the base of a
member-access callee of a call expression, but that call is a non-final
argument of an enclosing call. -/
def c1Body : Stmt :=
  .block (.cons (.exprStmt (.call (.ident "f" 1)
    (.cons (.call (.selector (.ident "h" 7) "A") .nil)
      (.cons (.ident "x" 2) .nil)))) .nil)

/-- Same shape as `c1Body`, used for the deletion-signal claim: body
`f(h.A(), x)` in which the raised signal is consumed by the sibling
argument `x` rather than by an ancestor in a statement list. -/
def c2Body : Stmt :=
  .block (.cons (.exprStmt (.call (.ident "f" 1)
    (.cons (.call (.selector (.ident "h" 7) "A") .nil)
      (.cons (.ident "x" 2) .nil)))) .nil)

/-- Body `for i := 0; i < h.N; i++ { h.Foo() }`. -/
def c3Body : Stmt :=
  .block (.cons (.forStmt
    (.some (.assign (.cons (.ident "i" 3) .nil) (.cons (.basicLit "0") .nil)))
    (Option.some (.binary .lss (.ident "i" 3) (.selector (.ident "h" 7) "N")))
    (.some (.incDec (.ident "i" 3)))
    (.cons (.exprStmt (.call (.selector (.ident "h" 7) "Foo") .nil)) .nil)) .nil)

/-- C1, counterexample: in the body `f(h.A(), x)` every harness reference
occurs as the base of a member-access callee of a call expression (the
literal hypothesis of the claim holds), yet the transformed body still
contains a harness reference: the deletion signal raised at `h.A()` is
consumed by the post-order visit of the sibling argument `x` (a slice
element visited first), which deletes `x` and leaves `f(h.A())` in place. -/
theorem c1_counterexample :
    refsOkS 7 c1Body = true ∧
    countRefsS 7 (removeReferencesToIdentifier 7 c1Body) ≠ 0 := by
  constructor
  · decide
  · decide

/-- C1, amended: if every harness reference occurs either as the base of a
member-access call that is the entire expression of a statement sitting in
a statement list, or as the base of the member-access right operand of a
strictly-less-than for-condition whose left operand, init and post are free
of harness references, then the rewritten body contains zero harness
references. -/
theorem c1_zero_residual_refs (idObj : Nat) (l : StmtList)
    (h : goodSL idObj l = true) :
    countRefsS idObj (removeReferencesToIdentifier idObj (Stmt.block l)) = 0 := by
  show countRefsS idObj (applyStmt idObj (Stmt.block l) false).1 = 0
  simp only [applyStmt, countRefsS]
  exact countRefs_applyStmtList_good idObj l false h

/-- Witness body for the amended completeness statement:
`b.StartTimer(); for i := 0; i < b.N; i++ { work() }`. -/
def w1Body : StmtList :=
  .cons (.exprStmt (.call (.selector (.ident "b" 7) "StartTimer") .nil))
    (.cons (.forStmt
      (.some (.assign (.cons (.ident "i" 3) .nil) (.cons (.basicLit "0") .nil)))
      (Option.some (.binary .lss (.ident "i" 3) (.selector (.ident "b" 7) "N")))
      (.some (.incDec (.ident "i" 3)))
      (.cons (.exprStmt (.call (.ident "work" 4) .nil)) .nil)) .nil)

/-- Witness for `c1_zero_residual_refs` at the concrete body `w1Body`. -/
theorem c1_zero_residual_refs_witness :
    goodSL 7 w1Body = true ∧
    countRefsS 7 (removeReferencesToIdentifier 7 (Stmt.block w1Body)) = 0 :=
  ⟨by decide, c1_zero_residual_refs 7 w1Body (by decide)⟩

/-- C2, counterexample: in the body `f(h.A(), x)` the signal raised at
`h.A()` is not consumed by the first ancestor sitting in a statement list
(the expression statement).  Had it been, that statement would have been
removed and the resulting body would be empty; instead the sibling
argument `x` is deleted and the statement survives as `f(h.A())`. -/
theorem c2_counterexample :
    removeReferencesToIdentifier 7 c2Body =
      Stmt.block (.cons (.exprStmt (.call (.ident "f" 1)
        (.cons (.call (.selector (.ident "h" 7) "A") .nil) .nil))) .nil) ∧
    removeReferencesToIdentifier 7 c2Body ≠ Stmt.block .nil := by
  constructor
  · decide
  · decide

/-- C2, amended: a raised deletion signal is consumed by the first
subsequently post-visited node occupying a slice index — possibly a later
sibling expression rather than an ancestor statement — and in particular it
never survives past the end of the body's traversal: the flag returned by
the traversal of a function body entered with the flag down is down. -/
theorem c2_signal_cleared (idObj : Nat) (l : StmtList) :
    (applyStmt idObj (Stmt.block l) false).2 = false := by
  simp only [applyStmt]
  exact applyStmtList_flag idObj l

/-- C3, counterexample: on the body
`for i := 0; i < h.N; i++ { h.Foo() }` the transformer replaces the loop
slot by the loop's body block and then keeps walking the original node's
children — including that block — so the harness call inside the hoisted
body is removed.  Had the traversal not descended further into the original
node, the result would have kept `h.Foo()` (whether the body statements are
spliced or kept wrapped in a block); the actual result is an empty block. -/
theorem c3_counterexample :
    removeReferencesToIdentifier 7 c3Body = Stmt.block (.cons (.block .nil) .nil) ∧
    Stmt.block (.cons (.block .nil) .nil) ≠
      Stmt.block (.cons (.block
        (.cons (.exprStmt (.call (.selector (.ident "h" 7) "Foo") .nil)) .nil)) .nil) ∧
    Stmt.block (.cons (.block .nil) .nil) ≠
      Stmt.block (.cons (.exprStmt (.call (.selector (.ident "h" 7) "Foo") .nil)) .nil) := by
  refine ⟨by decide, by decide, by decide⟩

/-- C3, amended: when the loop-hoist rule fires on a for statement whose
init, post and comparison left operand carry no harness references, the
statement's slot receives the loop's own body as a single block whose
statements are the loop body's statements, in order, each further
transformed — the traversal continues into the original node, it does not
stop at the replacement. -/
theorem c3_hoist_replaces_and_descends (idObj : Nat) (ini : OptStmt) (x : Expr)
    (nm f : String) (post : OptStmt) (body : StmtList)
    (h1 : countRefsSO idObj ini = 0) (h2 : countRefsE idObj x = 0)
    (h3 : countRefsSO idObj post = 0) :
    applyStmt idObj
      (Stmt.forStmt ini
        (Option.some (Expr.binary .lss x (Expr.selector (Expr.ident nm idObj) f)))
        post body) false =
      (Stmt.block (applyStmtList idObj body false).1,
       (applyStmtList idObj body false).2) := by
  have hh : hoistCond idObj
      (Option.some (Expr.binary .lss x (Expr.selector (Expr.ident nm idObj) f))) = true := by
    simp [hoistCond]
  have hx := applyExpr_noop idObj x h2
  have hcond : applyExpr idObj
      (Expr.binary .lss x (Expr.selector (Expr.ident nm idObj) f)) false =
      (Expr.binary .lss x (Expr.selector (Expr.ident nm idObj) f), false) := by
    have hbin : isHarnessCall idObj
        (Expr.binary .lss x (Expr.selector (Expr.ident nm idObj) f)) = false := rfl
    have hsel : isHarnessCall idObj (Expr.selector (Expr.ident nm idObj) f) = false := rfl
    have hid : isHarnessCall idObj (Expr.ident nm idObj) = false := rfl
    simp only [applyExpr, hbin, hsel, hid, Bool.false_eq_true, if_false, hx]
  simp only [applyStmt, hh, if_true]
  rw [applyStmtOpt_noop idObj ini h1]
  simp only [applyExprOpt]
  rw [hcond]
  rw [applyStmtOpt_noop idObj post h3]

/-- Witness loop body `work()` for the amended hoist statement. -/
def w3Body : StmtList := .cons (.exprStmt (.call (.ident "work" 4) .nil)) .nil

/-- Witness for `c3_hoist_replaces_and_descends` at a concrete loop. -/
theorem c3_hoist_witness :
    countRefsSO 7 OptStmt.none = 0 ∧
    countRefsE 7 (Expr.ident "i" 3) = 0 ∧
    applyStmt 7 (Stmt.forStmt .none
      (Option.some (Expr.binary .lss (Expr.ident "i" 3)
        (Expr.selector (Expr.ident "b" 7) "N"))) .none w3Body) false =
      (Stmt.block (applyStmtList 7 w3Body false).1,
       (applyStmtList 7 w3Body false).2) :=
  ⟨rfl, by decide,
    c3_hoist_replaces_and_descends 7 .none (Expr.ident "i" 3) "b" "N" .none w3Body
      rfl (by decide) rfl⟩

/-- A candidate declaration with one named parameter and an existing doc
comment. -/
def c4Decl : FuncDecl :=
  { name := "BenchmarkX",
    params := [⟨[⟨"b", 7⟩]⟩],
    doc := Option.some ["// BenchmarkX measures X"],
    body := Stmt.block .nil }

/-- C4, counterexample: the `//go:noinline` comment is appended after the
existing leading annotations (main.go:272 uses `append`), so on a
declaration that already carries a doc comment the directive is the last
element of the leading annotation list, not the first. -/
theorem c4_counterexample :
    rewriteBenchFuncInPlace c4Decl =
      Except.ok { name := "BenchmarkX", params := [],
                  doc := Option.some ["// BenchmarkX measures X", "//go:noinline"],
                  body := Stmt.block .nil } ∧
    ["// BenchmarkX measures X", "//go:noinline"].head? ≠
      Option.some "//go:noinline" := by
  constructor
  · rfl
  · decide

/-- C4, amended: for every candidate declaration with exactly one named
parameter, the editor removes the harness parameter from the parameter
list, rewrites the body, and appends the do-not-inline directive to the
declaration's leading annotation list (the directive becomes the last
element, an empty annotation group being created first if none exists). -/
theorem c4_param_removed_directive_appended (dn pn : String) (obj : Nat)
    (doc : Option (List String)) (body : Stmt) :
    rewriteBenchFuncInPlace ⟨dn, [⟨[⟨pn, obj⟩]⟩], doc, body⟩ =
      Except.ok ⟨dn, [], Option.some (doc.getD [] ++ [goNoinlineComment]),
        removeReferencesToIdentifier obj body⟩ := rfl

/-- C5: whenever the number of selection matches differs from one — zero
matches as well as several — the run dies with a diagnostic and performs no
file-system action at all: nothing is created, copied or mutated. -/
theorem c5_selection_rejected_before_fs (pkg : Package) (pat : String)
    (h : (findBenchmarkFuncs pkg pat).length ≠ 1) :
    (mainRun pkg pat).1 = [] ∧ (mainRun pkg pat).2.isSome = true := by
  cases hf : findBenchmarkFuncs pkg pat with
  | nil => simp [mainRun, hf]
  | cons a rest =>
      cases rest with
      | nil => rw [hf] at h; simp at h
      | cons c t => simp [mainRun, hf]

/-- Witness for `c5_selection_rejected_before_fs`: the empty package. -/
theorem c5_selection_witness :
    (findBenchmarkFuncs ⟨[], []⟩ "x").length ≠ 1 ∧
    (mainRun ⟨[], []⟩ "x").1 = [] ∧ (mainRun ⟨[], []⟩ "x").2.isSome = true :=
  ⟨by decide, c5_selection_rejected_before_fs ⟨[], []⟩ "x" (by decide)⟩

/-- C6: when the selected declaration does not have exactly one parameter,
the run dies and no file is modified: the only file-system actions already
performed are the creation of the scratch directory and of the fresh
copies inside it; the truncating rewrite of the copied source, the renames
and later steps never happen. -/
theorem c6_shape_error_no_modification (pkg : Package) (pat : String)
    (loc : fnLoc) (d : FuncDecl)
    (h1 : findBenchmarkFuncs pkg pat = [loc])
    (h2 : lookupDecl pkg loc = Option.some d)
    (h3 : numFields d.params ≠ 1) :
    (mainRun pkg pat).2.isSome = true ∧
    ∀ a ∈ (mainRun pkg pat).1, FsAction.modifies a = false := by
  have hbne : (numFields d.params != 1) = true := by
    simp only [bne, Bool.not_eq_true']
    exact beq_eq_false_iff_ne.mpr h3
  have herr : rewriteBenchFuncInPlace d =
      Except.error "Function is expected to have exactly one parameter" := by
    simp only [rewriteBenchFuncInPlace, hbne, if_true]
  simp only [mainRun, h1, List.isEmpty_nil, if_true, h2, herr]
  refine ⟨rfl, ?_⟩
  intro a ha
  simp only [List.mem_cons, List.not_mem_nil, or_false] at ha
  rcases ha with rfl | rfl <;> rfl

/-- The zero-parameter declaration used as the shape-error witness. -/
def d6 : FuncDecl := ⟨"BenchmarkZero", [], Option.none, Stmt.block .nil⟩

/-- A package containing exactly one test file declaring `d6`. -/
def pkg6 : Package := ⟨[⟨"a_test.go", Option.some [d6]⟩], []⟩

/-- Witness for `c6_shape_error_no_modification` at a concrete package. -/
theorem c6_shape_witness :
    findBenchmarkFuncs pkg6 "Zero" = [⟨"a_test.go", "BenchmarkZero"⟩] ∧
    lookupDecl pkg6 ⟨"a_test.go", "BenchmarkZero"⟩ = Option.some d6 ∧
    numFields d6.params ≠ 1 ∧
    (mainRun pkg6 "Zero").2.isSome = true ∧
    ∀ a ∈ (mainRun pkg6 "Zero").1, FsAction.modifies a = false :=
  ⟨by decide, by decide, by decide,
    c6_shape_error_no_modification pkg6 "Zero" ⟨"a_test.go", "BenchmarkZero"⟩ d6
      (by decide) (by decide) (by decide)⟩

/-- C7: on a body already containing no harness references, the transformer
is the identity: neither rewrite rule can fire and nothing is deleted. -/
theorem c7_transformer_noop (idObj : Nat) (root : Stmt)
    (h : countRefsS idObj root = 0) :
    removeReferencesToIdentifier idObj root = root := by
  show (applyStmt idObj root false).1 = root
  rw [applyStmt_noop idObj root h]

/-- Harness-free body `compute()` used as the no-op witness. -/
def w7Body : Stmt := .block (.cons (.exprStmt (.call (.ident "compute" 1) .nil)) .nil)

/-- Witness for `c7_transformer_noop` at a concrete harness-free body. -/
theorem c7_transformer_noop_witness :
    countRefsS 7 w7Body = 0 ∧ removeReferencesToIdentifier 7 w7Body = w7Body :=
  ⟨by decide, c7_transformer_noop 7 w7Body (by decide)⟩

/-- Body `h.StartTimer(); compute(); h.StopTimer()`. -/
def c8Body : Stmt :=
  .block (.cons (.exprStmt (.call (.selector (.ident "h" 7) "StartTimer") .nil))
    (.cons (.exprStmt (.call (.ident "compute" 1) .nil))
      (.cons (.exprStmt (.call (.selector (.ident "h" 7) "StopTimer") .nil)) .nil)))

/-- C8: the concrete scenario
`h.StartTimer(); compute(); h.StopTimer()` rewrites to the single
statement `compute()`: both harness-bound call statements are deleted and
the unrelated statement is retained in place. -/
theorem c8_concrete_scenario :
    removeReferencesToIdentifier 7 c8Body =
      Stmt.block (.cons (.exprStmt (.call (.ident "compute" 1) .nil)) .nil) := by
  decide

/-- C9, counterexample: the rename step replaces only the first occurrence
of `_test.go` (`strings.Replace(..., 1)` at main.go:179), so the file name
`foo_test.go_test.go` — which carries the test-only suffix — is renamed to
`foo_bborig.go_test.go`, which still carries the test-only suffix. -/
theorem c9_counterexample :
    renameTestFiles [⟨"foo_test.go_test.go", false⟩] =
      [⟨"foo_bborig.go_test.go", false⟩] ∧
    listEndsWith "foo_bborig.go_test.go".data testGoSuffix = true := by
  constructor
  · decide
  · decide

/-- C9, amended: directories and files without the test suffix are left
untouched, and a file whose name contains `_test.go` exactly once (then
necessarily as its suffix) is renamed to a name that no longer carries the
test-only suffix. -/
theorem c9_rename_removes_suffix (e : DirEntry) :
    ((e.isDir = true ∨ listEndsWith e.name.data testGoSuffix = false) →
      renameEntry e = e) ∧
    (e.isDir = false → listEndsWith e.name.data testGoSuffix = true →
      countOcc testGoSuffix e.name.data = 1 →
      listEndsWith (renameEntry e).name.data testGoSuffix = false) := by
  constructor
  · intro h
    rcases h with h | h
    · simp [renameEntry, h]
    · simp [renameEntry, h]
  · intro hd hsuf hocc
    have hnm : (renameEntry e).name.data =
        replaceFirst testGoSuffix bborigSuffix e.name.data := by
      simp [renameEntry, hd, hsuf]
    rw [hnm]
    exact replaceFirst_removes_suffix e.name.data hsuf hocc

/-- Witness for `c9_rename_removes_suffix` at the concrete listing
containing a directory, a plain source file and an ordinary test file. -/
theorem c9_rename_witness :
    renameEntry ⟨"sub", true⟩ = ⟨"sub", true⟩ ∧
    renameEntry ⟨"main.go", false⟩ = ⟨"main.go", false⟩ ∧
    listEndsWith (renameEntry ⟨"a_test.go", false⟩).name.data testGoSuffix = false :=
  ⟨(c9_rename_removes_suffix ⟨"sub", true⟩).1 (Or.inl rfl),
   (c9_rename_removes_suffix ⟨"main.go", false⟩).1 (Or.inr (by decide)),
   (c9_rename_removes_suffix ⟨"a_test.go", false⟩).2 rfl (by decide) (by decide)⟩

/-- C10: a location is produced by the selection step exactly when some
test file of the package (in-package or external) parses to a declaration
list containing a function whose name starts with `Benchmark` and matches
the wrapped name pattern — an unanchored substring match for literal
patterns — the location being that file's name paired with the function's
name. -/
theorem c10_selection_characterization (pkg : Package) (pat : String) (loc : fnLoc) :
    loc ∈ findBenchmarkFuncs pkg pat ↔
      ∃ f ∈ pkg.testGoFiles ++ pkg.xTestGoFiles, ∃ decls,
        f.parsed = Option.some decls ∧
        ∃ d ∈ decls, benchNamed d.name = true ∧ matchWrapped pat d.name = true ∧
          loc = ⟨f.name, d.name⟩ := by
  unfold findBenchmarkFuncs
  rw [List.mem_flatMap]
  constructor
  · rintro ⟨f, hf, hm⟩
    refine ⟨f, hf, ?_⟩
    cases hp : f.parsed with
    | none => rw [hp] at hm; simp at hm
    | some decls =>
        rw [hp] at hm
        rw [List.mem_filterMap] at hm
        obtain ⟨d, hd, hsome⟩ := hm
        by_cases hc : (benchNamed d.name && matchWrapped pat d.name) = true
        · rw [if_pos hc] at hsome
          rw [Bool.and_eq_true] at hc
          injection hsome with hs
          exact ⟨decls, rfl, d, hd, hc.1, hc.2, hs.symm⟩
        · rw [if_neg hc] at hsome
          cases hsome
  · rintro ⟨f, hf, decls, hp, d, hd, hb, hmtch, rfl⟩
    refine ⟨f, hf, ?_⟩
    rw [hp]
    rw [List.mem_filterMap]
    refine ⟨d, hd, ?_⟩
    rw [if_pos (by rw [Bool.and_eq_true]; exact ⟨hb, hmtch⟩)]
